import Mathlib

/-!
Verification development for the WebServer repository.

The C++ sources under code/ are shallowly embedded here: machine integers
become `Nat`/`Int` with explicit modular arithmetic where wrap-around
matters, `std::vector`/`std::deque` become `List`, `std::unordered_map`
becomes an association list, and operations that can perform an
out-of-bounds access, violate an active `assert`, or fail to terminate
return `Option` (with `none` denoting the fault).  Kernel calls
(`readv`, `epoll_ctl`, `accept`, `sem_wait`, condition variables, the
clock) are parameters of the embedded functions.
-/

namespace WebServerProof

/-! ### HeapTimer (code/timer/heaptimer.cpp, heaptimer.h)

`heap_ : std::vector<TimerNode>` and `ref_ : std::unordered_map<int, size_t>`.
Expiry instants are modelled as integers counting milliseconds; the callback
`cb` plays no role in the heap structure and is omitted from the node.
Index arithmetic in `siftup_` is on `size_t` and is modelled modulo `2^64`. -/

/-- Number of values of the 64-bit `size_t` type. -/
def w64 : Nat := 18446744073709551616

/-- The `size_t` expression `i - 1` for `i < 2^64`: wraps modulo `2^64`. -/
def sub64one (i : Nat) : Nat := (i + (w64 - 1)) % w64

/-- `TimerNode` from heaptimer.h: id and expiry instant (ms). -/
structure TNode where
  id : Int
  expires : Int
  deriving DecidableEq, Repr

instance : Inhabited TNode := ⟨⟨0, 0⟩⟩

/-- Lookup in an association list, modelling `std::unordered_map` access. -/
def refGet (r : List (Int × Nat)) (k : Int) : Option Nat :=
  match r with
  | [] => none
  | (a, b) :: rest => if a = k then some b else refGet rest k

/-- Insert-or-update in an association list (`map[k] = v`). -/
def refSet (r : List (Int × Nat)) (k : Int) (v : Nat) : List (Int × Nat) :=
  match r with
  | [] => [(k, v)]
  | (a, b) :: rest => if a = k then (a, v) :: rest else (a, b) :: refSet rest k v

/-- Erase a key from an association list (`map.erase(k)`). -/
def refErase (r : List (Int × Nat)) (k : Int) : List (Int × Nat) :=
  match r with
  | [] => []
  | (a, b) :: rest => if a = k then rest else (a, b) :: refErase rest k

/-- `HeapTimer::SwapNode_(i, j)`: swap `heap_[i]` and `heap_[j]`, then set
`ref_[heap_[i].id] = i` and `ref_[heap_[j].id] = j`.  `none` models an
out-of-bounds vector access. -/
def SwapNode_ (heap : List TNode) (ref : List (Int × Nat)) (i j : Nat) :
    Option (List TNode × List (Int × Nat)) :=
  match heap[i]?, heap[j]? with
  | some a, some b =>
    some ((heap.set i b).set j a, refSet (refSet ref b.id i) a.id j)
  | _, _ => none

/-- Loop of `HeapTimer::siftup_`.  The C++ loop guard is `j >= 0` with
`size_t j`, which is always true, so every iteration reads `heap_[j]`
unconditionally; for `i = 0` the parent index `(i - 1) / 2` wraps to
`(2^64 - 1) / 2`.  `none` models an out-of-bounds access (or exhausted
fuel, which never happens from an in-range start). -/
def siftupGo : Nat → List TNode → List (Int × Nat) → Nat →
    Option (List TNode × List (Int × Nat))
  | 0, _, _, _ => none
  | fuel + 1, heap, ref, i =>
    let j := sub64one i / 2
    match heap[j]?, heap[i]? with
    | some nj, some ni =>
      if nj.expires < ni.expires then some (heap, ref)
      else
        match SwapNode_ heap ref i j with
        | some (h2, r2) => siftupGo fuel h2 r2 j
        | none => none
    | _, _ => none

/-- `HeapTimer::siftup_(i)`. -/
def siftup_ (heap : List TNode) (ref : List (Int × Nat)) (i : Nat) :
    Option (List TNode × List (Int × Nat)) :=
  if i < heap.length then siftupGo (heap.length + 1) heap ref i else none

/-- Loop of `HeapTimer::siftdown_(index, n)`; returns the final `i`. -/
def siftdownGo : Nat → List TNode → List (Int × Nat) → Nat → Nat →
    Option (List TNode × List (Int × Nat) × Nat)
  | 0, _, _, _, _ => none
  | fuel + 1, heap, ref, i, n =>
    let j := i * 2 + 1
    if j < n then
      match heap[j]? with
      | none => none
      | some nj0 =>
        let pick : Option (Nat × TNode) :=
          if j + 1 < n then
            match heap[j + 1]? with
            | some nj1 =>
              some (if nj1.expires < nj0.expires then (j + 1, nj1) else (j, nj0))
            | none => none
          else some (j, nj0)
        match pick with
        | none => none
        | some (j2, nj) =>
          match heap[i]? with
          | none => none
          | some ni =>
            if ni.expires < nj.expires then some (heap, ref, i)
            else
              match SwapNode_ heap ref i j2 with
              | some (h2, r2) => siftdownGo fuel h2 r2 j2 n
              | none => none
    else some (heap, ref, i)

/-- `HeapTimer::siftdown_(index, n)`: final state plus the C++ return value
`i > index`. -/
def siftdown_ (heap : List TNode) (ref : List (Int × Nat)) (index n : Nat) :
    Option (List TNode × List (Int × Nat) × Bool) :=
  if index < heap.length ∧ n ≤ heap.length then
    (siftdownGo (n + 1) heap ref index n).map
      (fun t => (t.1, t.2.1, decide (index < t.2.2)))
  else none

/-- `HeapTimer::add(id, timeout, cb)` at clock reading `now` (ms). -/
def add (heap : List TNode) (ref : List (Int × Nat)) (id : Int)
    (timeout now : Int) : Option (List TNode × List (Int × Nat)) :=
  match refGet ref id with
  | none =>
    let i := heap.length
    siftup_ (heap ++ [⟨id, now + timeout⟩]) (refSet ref id i) i
  | some i =>
    match heap[i]? with
    | none => none
    | some _ =>
      let heap2 := heap.set i ⟨id, now + timeout⟩
      match siftdown_ heap2 ref i heap2.length with
      | none => none
      | some (h2, r2, moved) => if moved then some (h2, r2) else siftup_ h2 r2 i

/-- `HeapTimer::del_(index)`: swap the victim to the back, re-sift the
replaced slot, then pop the back and erase its id from `ref_`. -/
def del_ (heap : List TNode) (ref : List (Int × Nat)) (index : Nat) :
    Option (List TNode × List (Int × Nat)) :=
  if heap.isEmpty || decide (heap.length ≤ index) then none
  else
    let i := index
    let n := heap.length - 1
    if i < n then
      match SwapNode_ heap ref i n with
      | none => none
      | some (h1, r1) =>
        match siftdown_ h1 r1 i n with
        | none => none
        | some (h2, r2, moved) =>
          match (if moved then some (h2, r2) else siftup_ h2 r2 i) with
          | none => none
          | some (h3, r3) =>
            match h3.getLast? with
            | none => none
            | some last => some (h3.dropLast, refErase r3 last.id)
    else
      match heap.getLast? with
      | none => none
      | some last => some (heap.dropLast, refErase ref last.id)

/-- `HeapTimer::pop()`: delete the root. -/
def pop (heap : List TNode) (ref : List (Int × Nat)) :
    Option (List TNode × List (Int × Nat)) :=
  if heap.isEmpty then none else del_ heap ref 0

/-- `HeapTimer::doWork(id)`: run the callback of `id` (no-op in this model)
and delete its node; silently returns when the heap is empty or the id is
unknown. -/
def doWork (heap : List TNode) (ref : List (Int × Nat)) (id : Int) :
    Option (List TNode × List (Int × Nat)) :=
  if heap.isEmpty then some (heap, ref)
  else
    match refGet ref id with
    | none => some (heap, ref)
    | some i =>
      match heap[i]? with
      | none => none
      | some _ => del_ heap ref i

/-- `HeapTimer::adjust(id, timeout)` at clock reading `now`: overwrite the
expiry of the node and sift down only. -/
def adjust (heap : List TNode) (ref : List (Int × Nat)) (id : Int)
    (timeout now : Int) : Option (List TNode × List (Int × Nat)) :=
  if heap.isEmpty then none
  else
    match refGet ref id with
    | none => none
    | some i =>
      match heap[i]? with
      | none => none
      | some _ =>
        let heap2 := heap.set i ⟨id, now + timeout⟩
        (siftdown_ heap2 ref i heap2.length).map (fun t => (t.1, t.2.1))

/-- Loop of `HeapTimer::tick()`; `nows k` is the clock reading (ms) at the
k-th loop iteration. -/
def tickGo : Nat → List TNode → List (Int × Nat) → (Nat → Int) → Nat →
    Option (List TNode × List (Int × Nat))
  | 0, _, _, _, _ => none
  | fuel + 1, heap, ref, nows, k =>
    match heap with
    | [] => some ([], ref)
    | node :: _ =>
      if 0 < node.expires - nows k then some (heap, ref)
      else
        match pop heap ref with
        | none => none
        | some (h2, r2) => tickGo fuel h2 r2 nows (k + 1)

/-- `HeapTimer::tick()`: clear expired roots. -/
def tick (heap : List TNode) (ref : List (Int × Nat)) (nows : Nat → Int) :
    Option (List TNode × List (Int × Nat)) :=
  tickGo (heap.length + 1) heap ref nows 0

/-- Conversion of a C++ signed 64-bit value to `size_t` (modular). -/
def int64ToSize (v : Int) : Nat := (v % (w64 : Int)).toNat

/-- Conversion of a C++ `size_t` value to a 32-bit `int`
(implementation-defined modular behaviour of g++). -/
def sizeToInt (n : Nat) : Int :=
  let m := n % 4294967296
  if m < 2147483648 then (m : Int) else (m : Int) - 4294967296

/-- `HeapTimer::GetNextTick()`: call `tick`, then compute the remaining
delay of the root.  `nows` gives the clock readings consumed by `tick`,
`finalNow` the reading used for the subtraction.  The local `res` is a
`size_t`, so its comparison with 0 is over an unsigned type. -/
def GetNextTick (heap : List TNode) (ref : List (Int × Nat))
    (nows : Nat → Int) (finalNow : Int) : Option Int :=
  match tick heap ref nows with
  | none => none
  | some (h2, _) =>
    let res : Nat := w64 - 1
    let res : Nat :=
      match h2 with
      | [] => res
      | node :: _ =>
        let r := int64ToSize (node.expires - finalNow)
        if r < 0 then 0 else r
    some (sizeToInt res)

/-- The TimerHeap structural invariant stated by the specification: binary
min-heap on `expires`, `ref` gives the position of every node id, and no id
appears twice. -/
def heapInvariant (heap : List TNode) (ref : List (Int × Nat)) : Prop :=
  (∀ i, i < heap.length → ∀ j, j < heap.length →
      (j = 2 * i + 1 ∨ j = 2 * i + 2) →
      (heap.getD i default).expires ≤ (heap.getD j default).expires) ∧
  (∀ i, i < heap.length → refGet ref (heap.getD i default).id = some i) ∧
  (heap.map TNode.id).Nodup

/-! ### SqlConnPool (code/pool/sqlconnpool.cpp)

State visible to `GetConn`: the free-handle queue `connQue_` (handles
modelled as naturals) and the current count of the POSIX semaphore
`semId_`.  A call is modelled as an atomic snapshot: `blocked` means the
thread is suspended in `sem_wait` until some `FreeConn` posts. -/

/-- Result of one call to `SqlConnPool::GetConn()`. -/
inductive GetConnResult where
  | busyNull
  | blocked
  | acquired (handle : Nat) (rest : List Nat) (sem2 : Nat)
  deriving DecidableEq, Repr

/-- `SqlConnPool::GetConn()`: an empty queue logs a warning and returns
`nullptr` before touching the semaphore; otherwise `sem_wait` suspends the
caller when the count is zero, else the count is decremented and the front
handle popped under the mutex. -/
def GetConn (que : List Nat) (sem : Nat) : GetConnResult :=
  match que with
  | [] => GetConnResult.busyNull
  | h :: rest =>
    if sem = 0 then GetConnResult.blocked
    else GetConnResult.acquired h rest (sem - 1)

/-! ### BlockDeque (code/log/blockqueue.h)

`pop(item)` holds the mutex; while the deque is empty it waits on
`condConsumer_` and, after each wakeup, first tests `isClose_`.  The call
is modelled against the deque state at entry plus the list of states
observed after each condition-variable wakeup; `none` means the call is
still suspended in `condConsumer_.wait` after all listed wakeups. -/

/-- One call to `BlockDeque<T>::pop(item)`.  Returns `some (r, it)` when the
call finishes with result `r` and popped item `it`. -/
def popRun {α : Type} : List α → Bool → List (List α × Bool) → Option (Bool × Option α)
  | deq, _, wakeups =>
    match deq with
    | x :: _ => some (true, some x)
    | [] =>
      match wakeups with
      | [] => none
      | (deq2, closed2) :: rest =>
        if closed2 then some (false, none) else popRun deq2 closed2 rest

/-! ### Buffer (code/buffer/buffer.cpp)

`buffer_ : std::vector<char>` becomes a list of byte values; `readPos_`
and `writePos_` are the two cursors. -/

/-- `Buffer` state. -/
structure Buffer where
  buffer : List Nat
  readPos : Nat
  writePos : Nat
  deriving DecidableEq, Repr

/-- `Buffer::ReadableBytes()`. -/
def ReadableBytes (b : Buffer) : Nat := b.writePos - b.readPos

/-- `Buffer::WritableBytes()`. -/
def WritableBytes (b : Buffer) : Nat := b.buffer.length - b.writePos

/-- `Buffer::PrependableBytes()`. -/
def PrependableBytes (b : Buffer) : Nat := b.readPos

/-- The bytes of the readable span `[readPos_, writePos_)`. -/
def readableContent (b : Buffer) : List Nat :=
  (b.buffer.take b.writePos).drop b.readPos

/-- `std::copy(data.begin(), data.end(), buf.begin() + pos)`. -/
def writeRange (buf : List Nat) (pos : Nat) (data : List Nat) : List Nat :=
  buf.take pos ++ data ++ buf.drop (pos + data.length)

/-- `std::vector<char>::resize(n)`: truncate or zero-extend. -/
def resizeList (buf : List Nat) (n : Nat) : List Nat :=
  if n ≤ buf.length then buf.take n
  else buf ++ List.replicate (n - buf.length) 0

/-- `Buffer::MakeSpace_(len)`: grow the vector when even compaction would
not make room, otherwise shift the readable span down to offset 0. -/
def MakeSpace_ (b : Buffer) (len : Nat) : Buffer :=
  if WritableBytes b + PrependableBytes b < len then
    { b with buffer := resizeList b.buffer (b.writePos + len + 1) }
  else
    { buffer := writeRange b.buffer 0 (readableContent b),
      readPos := 0, writePos := ReadableBytes b }

/-- `Buffer::EnsureWriteable(len)`. -/
def EnsureWriteable (b : Buffer) (len : Nat) : Buffer :=
  if WritableBytes b < len then MakeSpace_ b len else b

/-- `Buffer::HasWritten(len)`. -/
def HasWritten (b : Buffer) (len : Nat) : Buffer :=
  { b with writePos := b.writePos + len }

/-- `Buffer::Append(str, len)`. -/
def Append (b : Buffer) (data : List Nat) : Buffer :=
  let b1 := EnsureWriteable b data.length
  HasWritten { b1 with buffer := writeRange b1.buffer b1.writePos data }
    data.length

/-- Outcome of the `readv` call in `Buffer::ReadFd`: failure with an error
code, or success delivering a byte sequence (`readv` fills the writable
tail first, then the 65535-byte stack stage). -/
inductive KernelRead where
  | err (errno : Nat)
  | ok (data : List Nat)

/-- `Buffer::ReadFd(fd, saveErrno)`: result is the new buffer state, the
return value, and the value stored through `saveErrno` (`none` when the
out-parameter is left untouched). -/
def ReadFd (b : Buffer) (k : KernelRead) : Buffer × Int × Option Nat :=
  match k with
  | KernelRead.err e => (b, -1, some e)
  | KernelRead.ok data =>
    let writable := WritableBytes b
    let len := data.length
    let b1 := { b with buffer := writeRange b.buffer b.writePos (data.take writable) }
    if len ≤ writable then
      ({ b1 with writePos := b1.writePos + len }, (len : Int), none)
    else
      let b2 := { b1 with writePos := b1.buffer.length }
      (Append b2 (data.drop writable), (len : Int), none)

/-! ### ThreadPool (code/pool/threadpool.h)

The worker lambda holds the mutex at every test: run the front task when
the queue is non-empty, break when the queue is empty and `isClosed`,
otherwise wait on the condition variable. -/

/-- The action one iteration of the worker loop takes, given the pool state
observed under the mutex. -/
inductive WorkerAct where
  | runTask
  | exitLoop
  | waitCond
  deriving DecidableEq, Repr

/-- One iteration of the worker loop body of `ThreadPool::ThreadPool`. -/
def workerStep {τ : Type} (tasks : List τ) (closed : Bool) : WorkerAct :=
  if !tasks.isEmpty then WorkerAct.runTask
  else if closed then WorkerAct.exitLoop
  else WorkerAct.waitCond

/-- The worker loop run to completion in the quiescent state after
`~ThreadPool` (no concurrent `AddTask`, `isClosed` fixed): returns the
tasks executed in order and `some true` when the loop was exited by
`break` (`none`: still waiting or out of fuel). -/
def workerLoop {τ : Type} : Nat → List τ → Bool → List τ × Option Bool
  | 0, _, _ => ([], none)
  | fuel + 1, tasks, closed =>
    match tasks with
    | t :: ts =>
      let r := workerLoop fuel ts closed
      (t :: r.1, r.2)
    | [] => if closed then ([], some true) else ([], none)

/-! ### Epoller (code/server/epoller.cpp)

The kernel interest set is modelled as an association list from fd to the
registered event mask; the third component of each result counts the
`epoll_ctl` system calls issued by the call. -/

/-- `Epoller::AddFd(fd, events)`. -/
def epollerAddFd (reg : List (Int × Nat)) (fd : Int) (events : Nat) :
    Bool × List (Int × Nat) × Nat :=
  if fd < 0 then (false, reg, 0)
  else
    match refGet reg fd with
    | some _ => (false, reg, 1)
    | none => (true, refSet reg fd events, 1)

/-- `Epoller::ModFd(fd, events)`. -/
def epollerModFd (reg : List (Int × Nat)) (fd : Int) (events : Nat) :
    Bool × List (Int × Nat) × Nat :=
  if fd < 0 then (false, reg, 0)
  else
    match refGet reg fd with
    | some _ => (true, refSet reg fd events, 1)
    | none => (false, reg, 1)

/-- `Epoller::DelFd(fd)`. -/
def epollerDelFd (reg : List (Int × Nat)) (fd : Int) :
    Bool × List (Int × Nat) × Nat :=
  if fd < 0 then (false, reg, 0)
  else
    match refGet reg fd with
    | some _ => (true, refErase reg fd, 1)
    | none => (false, reg, 1)

/-! ### WebServer::DealListen_ (code/server/webserver.cpp)

One iteration of the accept loop, deciding the fate of one `accept`
result.  `MAX_FD` is the connection cap from webserver.h, kept as a
parameter. -/

/-- Decision taken for one accepted descriptor. -/
inductive AcceptDecision where
  | ignore
  | busy
  | install
  deriving DecidableEq, Repr

/-- One iteration of `WebServer::DealListen_`: return on `fd <= 0`, send
the busy response and close when `userCount >= MAX_FD`, otherwise
`AddClient_`. -/
def dealListenStep (maxFd userCount : Nat) (fd : Int) : AcceptDecision :=
  if fd ≤ 0 then AcceptDecision.ignore
  else if userCount ≥ maxFd then AcceptDecision.busy
  else AcceptDecision.install

/-! ### Buffer lemmas -/

theorem writeRange_nil (buf : List Nat) (pos : Nat) :
    writeRange buf pos [] = buf := by
  simp [writeRange]

theorem length_readableContent (b : Buffer)
    (h2 : b.writePos ≤ b.buffer.length) :
    (readableContent b).length = ReadableBytes b := by
  simp [readableContent, ReadableBytes, List.length_drop, List.length_take,
    Nat.min_eq_left h2]

theorem take_writeRange (buf data : List Nat) (wp : Nat)
    (hw : wp ≤ buf.length) :
    (writeRange buf wp data).take (wp + data.length) = buf.take wp ++ data := by
  have hlen : (buf.take wp).length = wp := by
    rw [List.length_take]; omega
  have hlen2 : (buf.take wp ++ data).length = wp + data.length := by
    rw [List.length_append, hlen]
  unfold writeRange
  rw [List.take_append_eq_append_take, hlen2, Nat.sub_self, List.take_zero,
    List.append_nil, ← hlen2, List.take_length]

theorem drop_append_left (l₁ l₂ : List Nat) (rp : Nat) (h : rp ≤ l₁.length) :
    (l₁ ++ l₂).drop rp = l₁.drop rp ++ l₂ := by
  rw [List.drop_append_eq_append_drop, Nat.sub_eq_zero_of_le h, List.drop_zero]

/-- Writing `data` at `writePos_` (room guaranteed) and advancing the write
cursor appends exactly `data` to the readable span. -/
theorem write_at_end_spec (b : Buffer) (data : List Nat)
    (h1 : b.readPos ≤ b.writePos)
    (h2 : b.writePos + data.length ≤ b.buffer.length) :
    ReadableBytes (HasWritten
        { b with buffer := writeRange b.buffer b.writePos data } data.length)
      = ReadableBytes b + data.length ∧
    readableContent (HasWritten
        { b with buffer := writeRange b.buffer b.writePos data } data.length)
      = readableContent b ++ data := by
  constructor
  · simp only [ReadableBytes, HasWritten]
    omega
  · have hw : b.writePos ≤ b.buffer.length := by omega
    simp only [readableContent, HasWritten]
    rw [take_writeRange _ _ _ hw,
      drop_append_left _ _ _ (by rw [List.length_take]; omega)]

/-- `EnsureWriteable` makes room for `len` bytes while preserving the
readable span and the cursor invariant. -/
theorem ensureWriteable_spec (b : Buffer) (len : Nat)
    (h1 : b.readPos ≤ b.writePos) (h2 : b.writePos ≤ b.buffer.length) :
    (EnsureWriteable b len).readPos ≤ (EnsureWriteable b len).writePos ∧
    (EnsureWriteable b len).writePos + len
        ≤ (EnsureWriteable b len).buffer.length ∧
    ReadableBytes (EnsureWriteable b len) = ReadableBytes b ∧
    readableContent (EnsureWriteable b len) = readableContent b := by
  unfold EnsureWriteable
  by_cases hW : WritableBytes b < len
  · rw [if_pos hW]
    unfold MakeSpace_
    by_cases hG : WritableBytes b + PrependableBytes b < len
    · rw [if_pos hG]
      have hgrow : b.buffer.length < b.writePos + len + 1 := by
        unfold WritableBytes at hW; omega
      have hres : resizeList b.buffer (b.writePos + len + 1)
          = b.buffer
            ++ List.replicate (b.writePos + len + 1 - b.buffer.length) 0 := by
        unfold resizeList; rw [if_neg (by omega)]
      refine ⟨h1, ?_, rfl, ?_⟩
      · simp only [hres, List.length_append, List.length_replicate]
        omega
      · simp only [readableContent, hres]
        rw [List.take_append_eq_append_take, Nat.sub_eq_zero_of_le h2,
          List.take_zero, List.append_nil]
    · rw [if_neg hG]
      have hclen : (readableContent b).length = ReadableBytes b :=
        length_readableContent b h2
      have hblen : (writeRange b.buffer 0 (readableContent b)).length
          = b.buffer.length := by
        simp only [writeRange, List.take_zero, Nat.zero_add, List.nil_append,
          List.length_append, List.length_drop, hclen]
        unfold ReadableBytes
        omega
      have hroom : ReadableBytes b + len ≤ b.buffer.length := by
        unfold WritableBytes PrependableBytes at hG
        unfold ReadableBytes
        omega
      refine ⟨Nat.zero_le _, ?_, ?_, ?_⟩
      · rw [hblen]; exact hroom
      · simp [ReadableBytes]
      · have hclen2 : ((b.buffer.take b.writePos).drop b.readPos).length
            = ReadableBytes b := hclen
        simp only [readableContent, writeRange, List.take_zero,
          Nat.zero_add, List.nil_append, List.drop_zero]
        rw [List.take_append_eq_append_take, hclen2, Nat.sub_self,
          List.take_zero, List.append_nil, ← hclen2, List.take_length]
  · rw [if_neg hW]
    refine ⟨h1, ?_, rfl, rfl⟩
    unfold WritableBytes at hW
    omega

/-- `Buffer::Append` appends exactly `data` to the readable span. -/
theorem append_spec (b : Buffer) (data : List Nat)
    (h1 : b.readPos ≤ b.writePos) (h2 : b.writePos ≤ b.buffer.length) :
    ReadableBytes (Append b data) = ReadableBytes b + data.length ∧
    readableContent (Append b data) = readableContent b ++ data := by
  obtain ⟨e1, e2, e3, e4⟩ := ensureWriteable_spec b data.length h1 h2
  obtain ⟨w1, w2⟩ := write_at_end_spec (EnsureWriteable b data.length) data e1 e2
  unfold Append
  exact ⟨by rw [w1, e3], by rw [w2, e4]⟩

/-! ### Theorems -/

instance heapInvariantDecidable (heap : List TNode) (ref : List (Int × Nat)) :
    Decidable (heapInvariant heap ref) := by
  unfold heapInvariant
  infer_instance

/-- C1: the TimerHeap invariant is claimed to be preserved by every public
operation whose precondition holds; the code refutes this: the empty heap
satisfies the invariant, yet the very first `add` already faults, because
`siftup_` at the root computes the parent index `(0 - 1) / 2` on a
`size_t`, reads `heap_` out of bounds (modelled as `none`), and so `add`
does not yield a state satisfying the invariant. -/
theorem c1_add_on_empty_heap_faults :
    heapInvariant [] [] ∧ add [] [] 0 10 0 = none := by decide

/-- C2: `siftup_` is claimed to perform only in-bounds accesses and to
terminate at the root; on a singleton heap (which satisfies the heap/ref
invariant), started at the in-range root index 0, the `size_t` loop guard
`j >= 0` is true, the parent index wraps to `(2^64 - 1) / 2`, and
`heap_[j]` is read out of bounds (modelled as `none`). -/
theorem c2_siftup_out_of_bounds_at_root :
    heapInvariant [⟨0, 5⟩] [(0, 0)] ∧ siftup_ [⟨0, 5⟩] [(0, 0)] 0 = none := by
  decide

/-- C3 counterexample: with every handle in use (free queue empty) the
claim says a `GetConn` caller blocks until a handle is released and does
not fail; in the code the call neither blocks nor succeeds — it returns
`nullptr` immediately. -/
theorem c3_getConn_counterexample :
    GetConn [] 0 = GetConnResult.busyNull ∧
      GetConn [] 0 ≠ GetConnResult.blocked := by decide

/-- C3 (amended): when the free queue is empty at entry `GetConn` returns
`nullptr` immediately without touching the semaphore; otherwise it waits
on the counting semaphore and then pops the front handle under the mutex,
so a successful return always yields a handle taken from the queue. -/
theorem c3_getConn_amended (h : Nat) (rest : List Nat) (sem : Nat)
    (hsem : sem ≠ 0) :
    GetConn (h :: rest) sem = GetConnResult.acquired h rest (sem - 1) ∧
      GetConn [] sem = GetConnResult.busyNull := by
  simp [GetConn, hsem]

/-- Witness for the amended C3 theorem at a concrete pool state. -/
theorem c3_getConn_amended_witness :
    (2 ≠ 0) ∧
      (GetConn [5, 6] 2 = GetConnResult.acquired 5 [6] (2 - 1) ∧
        GetConn [] 2 = GetConnResult.busyNull) :=
  ⟨by decide, c3_getConn_amended 5 [6] 2 (by decide)⟩

/-- C4: `GetNextTick` is claimed to return max(0, root expiry - now) and
never a negative value on a non-empty heap; with the root expiring at
100 ms, `tick` reading the clock at 99 ms (the root survives) and the
final subtraction reading it at 105 ms, the clamp `if (res < 0) res = 0`
is dead because `res` is a `size_t`, and the function returns -5. -/
theorem c4_getNextTick_returns_negative :
    heapInvariant [⟨0, 100⟩] [(0, 0)] ∧
      GetNextTick [⟨0, 100⟩] [(0, 0)] (fun _ => 99) 105 = some (-5) := by
  decide

/-- C5: a `pop` that begins when the deque is already closed and empty is
claimed to return false without blocking; the code enters
`condConsumer_.wait` before testing `isClose_`, so with no further signal
the call never returns (modelled as `none`). -/
theorem c5_pop_blocks_after_close :
    popRun ([] : List Nat) true [] = none := by decide

/-- C6: when the writable tail is empty and the kernel delivers `data`
(non-empty), `ReadFd` returns the byte count, the readable span grows by
exactly `data.length`, and the new bytes are exactly the kernel's bytes:
they all travel through the stack staging buffer and are appended. -/
theorem c6_readFd_fullTail (b : Buffer) (data : List Nat)
    (h1 : b.readPos ≤ b.writePos) (h2 : b.writePos ≤ b.buffer.length)
    (hfull : WritableBytes b = 0) (hne : data ≠ []) :
    (ReadFd b (KernelRead.ok data)).2.1 = (data.length : Int) ∧
    ReadableBytes (ReadFd b (KernelRead.ok data)).1
      = ReadableBytes b + data.length ∧
    readableContent (ReadFd b (KernelRead.ok data)).1
      = readableContent b ++ data := by
  obtain ⟨buf, rp, wp⟩ := b
  have h1b : rp ≤ wp := h1
  have h2b : wp ≤ buf.length := h2
  have hfb : buf.length - wp = 0 := hfull
  have hL : buf.length = wp := by omega
  subst hL
  have hpos : 0 < data.length := List.length_pos.mpr hne
  have hred : ReadFd (Buffer.mk buf rp buf.length) (KernelRead.ok data)
      = (Append (Buffer.mk buf rp buf.length) data,
         (data.length : Int), none) := by
    simp only [ReadFd, WritableBytes, Nat.sub_self, List.take_zero,
      writeRange_nil, List.drop_zero]
    rw [if_neg (by omega)]
  rw [hred]
  obtain ⟨a1, a2⟩ :=
    append_spec (Buffer.mk buf rp buf.length) data h1b (Nat.le_refl _)
  exact ⟨rfl, a1, a2⟩

/-- Witness for the C6 theorem: a buffer with full tail reading two bytes. -/
theorem c6_readFd_fullTail_witness :
    ((Buffer.mk [1, 2, 3] 1 3).readPos ≤ (Buffer.mk [1, 2, 3] 1 3).writePos ∧
      (Buffer.mk [1, 2, 3] 1 3).writePos
        ≤ (Buffer.mk [1, 2, 3] 1 3).buffer.length ∧
      WritableBytes (Buffer.mk [1, 2, 3] 1 3) = 0 ∧
      ([7, 8] : List Nat) ≠ []) ∧
    ((ReadFd (Buffer.mk [1, 2, 3] 1 3) (KernelRead.ok [7, 8])).2.1
        = (([7, 8] : List Nat).length : Int) ∧
      ReadableBytes (ReadFd (Buffer.mk [1, 2, 3] 1 3) (KernelRead.ok [7, 8])).1
        = ReadableBytes (Buffer.mk [1, 2, 3] 1 3)
          + ([7, 8] : List Nat).length ∧
      readableContent
          (ReadFd (Buffer.mk [1, 2, 3] 1 3) (KernelRead.ok [7, 8])).1
        = readableContent (Buffer.mk [1, 2, 3] 1 3) ++ [7, 8]) :=
  ⟨⟨by decide, by decide, by decide, by decide⟩,
    c6_readFd_fullTail (Buffer.mk [1, 2, 3] 1 3) [7, 8]
      (by decide) (by decide) (by decide) (by decide)⟩

/-- C8: `ReadFd` is atomic on kernel failure: when `readv` returns -1 the
function returns -1, stores the error code through `saveErrno`, and leaves
the cursors and buffer contents unchanged. -/
theorem c8_readFd_error_atomic (b : Buffer) (e : Nat) :
    ReadFd b (KernelRead.err e) = (b, -1, some e) := rfl

/-- C7: in `DealListen_` an accepted client (positive fd) has a connection
installed exactly when `userCount < MAX_FD` at accept time: at
`userCount = MAX_FD - 1` the connection is installed, and at
`userCount ≥ MAX_FD` the busy response is sent and the fd closed. -/
theorem c7_dealListen_cap (maxFd userCount : Nat) (fd : Int) (hfd : 0 < fd) :
    (dealListenStep maxFd userCount fd = AcceptDecision.install ↔
        userCount < maxFd) ∧
    (userCount + 1 = maxFd →
        dealListenStep maxFd userCount fd = AcceptDecision.install) ∧
    (maxFd ≤ userCount →
        dealListenStep maxFd userCount fd = AcceptDecision.busy) := by
  have hneg : ¬ fd ≤ 0 := by omega
  simp only [dealListenStep, if_neg hneg]
  by_cases hcap : userCount ≥ maxFd
  · rw [if_pos hcap]
    exact ⟨⟨fun h2 => absurd h2 (by decide), fun h2 => absurd hcap (by omega)⟩,
      fun h2 => absurd hcap (by omega), fun _ => rfl⟩
  · rw [if_neg hcap]
    exact ⟨⟨fun _ => by omega, fun _ => rfl⟩, fun _ => rfl,
      fun h2 => absurd h2 hcap⟩

/-- Witness for the C7 theorem at the boundary `userCount = MAX_FD - 1`
with the repository's cap of 65536. -/
theorem c7_dealListen_cap_witness :
    (0 < (5 : Int)) ∧
      ((dealListenStep 65536 65535 5 = AcceptDecision.install ↔
          65535 < 65536) ∧
        (65535 + 1 = 65536 →
          dealListenStep 65536 65535 5 = AcceptDecision.install) ∧
        (65536 ≤ 65535 →
          dealListenStep 65536 65535 5 = AcceptDecision.busy)) :=
  ⟨by decide, c7_dealListen_cap 65536 65535 5 (by decide)⟩

/-- C9: a worker never exits while tasks remain queued: with `isClosed`
set by the destructor the worker loop executes every queued task in order
and only then breaks, and the loop body chooses `break` exactly in states
where the task queue is empty and `isClosed` holds. -/
theorem c9_worker_drains_before_exit {τ : Type} (tasks : List τ) :
    workerLoop (tasks.length + 1) tasks true = (tasks, some true) ∧
    ∀ (ts : List τ) (c : Bool),
      workerStep ts c = WorkerAct.exitLoop ↔ (ts = [] ∧ c = true) := by
  constructor
  · induction tasks with
    | nil => rfl
    | cons t ts ih =>
      have h1 : workerLoop (ts.length + 1 + 1) (t :: ts) true
          = (t :: (workerLoop (ts.length + 1) ts true).1,
             (workerLoop (ts.length + 1) ts true).2) := rfl
      rw [List.length_cons, h1, ih]
  · intro ts c
    cases ts <;> cases c <;> simp [workerStep]

/-- C10: for every negative fd, `AddFd`, `ModFd` and `DelFd` return false,
issue no `epoll_ctl` system call, and leave the kernel interest set
unchanged. -/
theorem c10_epoller_negative_fd (reg : List (Int × Nat)) (fd : Int)
    (events : Nat) (h : fd < 0) :
    epollerAddFd reg fd events = (false, reg, 0) ∧
    epollerModFd reg fd events = (false, reg, 0) ∧
    epollerDelFd reg fd = (false, reg, 0) := by
  simp [epollerAddFd, epollerModFd, epollerDelFd, h]

/-- Witness for the C10 theorem at fd = -1 on a one-element interest set. -/
theorem c10_epoller_negative_fd_witness :
    ((-1 : Int) < 0) ∧
      (epollerAddFd [(3, 1)] (-1) 5 = (false, [(3, 1)], 0) ∧
        epollerModFd [(3, 1)] (-1) 5 = (false, [(3, 1)], 0) ∧
        epollerDelFd [(3, 1)] (-1) = (false, [(3, 1)], 0)) :=
  ⟨by decide, c10_epoller_negative_fd [(3, 1)] (-1) 5 (by decide)⟩

end WebServerProof
